import Mathlib

/-!
Shallow embedding of the falling-film HCl absorber simulation core
(`AbsorberSimulation` in `src/app.py`) and proofs of the specification
claims about it.

The Python floats are modelled by real numbers; `np.log`/`np.exp` by
`Real.log`/`Real.exp`; `Re_L**(-1/3)` by `Real.rpow`; `int(np.ceil x)`
(on a nonnegative argument) by `Int.ceil`.  Python list `append` becomes
`++ [·]`, and the `for _ in range(60): ... if C >= target: break` loop
becomes a fuel-indexed recursion `loopGo`.
-/

namespace Absorber

/-- The four scalar inputs of `AbsorberSimulation.__init__`. -/
structure Inputs where
  gas_flow : ℝ
  gas_temp : ℝ
  target_conc : ℝ
  cw_temp : ℝ

/-- `self.hcl_frac = 0.6728` (mass fraction of HCl in the feed gas). -/
def hcl_frac : ℝ := 0.6728

/-- `self.Di = 0.020` (tube inside diameter, m). -/
def Di : ℝ := 0.020

/-- `get_equilibrium_pressure(self, temp, conc)`:
`if conc < 0.01: return 0`, else `exp(10.5 - 2500/(temp+273) + 2*log conc) * 133.322`. -/
noncomputable def get_equilibrium_pressure (temp conc : ℝ) : ℝ :=
  if conc < 0.01 then 0
  else Real.exp (10.5 - 2500 / (temp + 273) + 2 * Real.log conc) * 133.322

/-- `total_hcl_in = self.gas_flow * self.hcl_frac`. -/
def total_hcl_in (p : Inputs) : ℝ := p.gas_flow * hcl_frac

/-- `product_rate = total_hcl_in / self.target_conc`. -/
noncomputable def product_rate (p : Inputs) : ℝ := total_hcl_in p / p.target_conc

/-- `water_rate = product_rate * (1 - self.target_conc)`. -/
noncomputable def water_rate (p : Inputs) : ℝ := product_rate p * (1 - p.target_conc)

/-- `self.N_tubes = int(np.ceil((vol_gas / u_gas_design) / (np.pi * (self.Di/2)**2)))`
with `vol_gas = (self.gas_flow / 3600) / 2.42` and `u_gas_design = 16.0`. -/
noncomputable def N_tubes (gas_flow : ℝ) : ℤ :=
  ⌈(gas_flow / 3600 / 2.42 / 16.0) / (Real.pi * (Di / 2) ^ 2)⌉

/-- The mutable state of the marching loop: current liquid temperature,
current HCl mass rate, the four profile lists, accumulated length, total
heat removed, and current liquid concentration. -/
structure MarchState where
  T : ℝ
  hcl : ℝ
  z : List ℝ
  temps : List ℝ
  concs : List ℝ
  flux : List ℝ
  accLen : ℝ
  totalQ : ℝ
  C : ℝ

/-- `gamma = (current_water_mass + current_hcl_mass) / 3600 / (np.pi * self.Di * self.N_tubes)`. -/
noncomputable def gammaL (p : Inputs) (s : MarchState) : ℝ :=
  (water_rate p + s.hcl) / 3600 / (Real.pi * Di * (N_tubes p.gas_flow : ℝ))

/-- `Re_L = 4 * gamma / 0.0008`. -/
noncomputable def Re_L (p : Inputs) (s : MarchState) : ℝ := 4 * gammaL p s / 0.0008

/-- `h_film = max(500, 1200 * (Re_L**(-1/3)))`. -/
noncomputable def h_film (p : Inputs) (s : MarchState) : ℝ :=
  max 500 (1200 * Re_L p s ^ (-(1 : ℝ) / 3))

/-- `P_gas_partial = (current_hcl_mass / (current_hcl_mass + gas_flow/3600)) * 101325`. -/
noncomputable def P_gas (p : Inputs) (s : MarchState) : ℝ :=
  s.hcl / (s.hcl + p.gas_flow / 3600) * 101325

/-- `driving_force = max(0, P_gas_partial - P_star)`. -/
noncomputable def driving_force (p : Inputs) (s : MarchState) : ℝ :=
  max 0 (P_gas p s - get_equilibrium_pressure s.T s.C)

/-- `mass_absorbed = (2.5e-4 * driving_force) * (np.pi * Di * L_step * N_tubes) * 36.5 / 1000`. -/
noncomputable def mass_absorbed (p : Inputs) (s : MarchState) : ℝ :=
  2.5e-4 * driving_force p s * (Real.pi * Di * 0.1 * (N_tubes p.gas_flow : ℝ)) * 36.5 / 1000

/-- `Q_gen = mass_absorbed * 1800`. -/
noncomputable def Q_gen (p : Inputs) (s : MarchState) : ℝ := mass_absorbed p s * 1800

/-- `U_overall = 1.0 / (1/h_film + 1/2000 + 0.005/150) * 1000`. -/
noncomputable def U_overall (p : Inputs) (s : MarchState) : ℝ :=
  1.0 / (1 / h_film p s + 1 / 2000 + 0.005 / 150) * 1000

/-- `Q_removed = U_overall * (np.pi * Di * L_step * N_tubes) * (T_curr - cw_temp) / 1000`. -/
noncomputable def Q_removed (p : Inputs) (s : MarchState) : ℝ :=
  U_overall p s * (Real.pi * Di * 0.1 * (N_tubes p.gas_flow : ℝ)) * (s.T - p.cw_temp) / 1000

/-- `dt = (Q_gen - Q_removed) / (((water + hcl)/3600) * 4.18)`. -/
noncomputable def dTstep (p : Inputs) (s : MarchState) : ℝ :=
  (Q_gen p s - Q_removed p s) / ((water_rate p + s.hcl) / 3600 * 4.18)

/-- `current_hcl_mass += mass_absorbed * 3600`. -/
noncomputable def nextHcl (p : Inputs) (s : MarchState) : ℝ :=
  s.hcl + mass_absorbed p s * 3600

/-- `C_curr = current_hcl_mass / (current_hcl_mass + current_water_mass)` (with the updated HCl mass). -/
noncomputable def nextC (p : Inputs) (s : MarchState) : ℝ :=
  nextHcl p s / (nextHcl p s + water_rate p)

/-- One iteration of the loop body in `solve`: update `T`, the HCl mass,
`C`, the accumulated length and total heat, and append one entry to each
of the four profile lists. -/
noncomputable def step (p : Inputs) (s : MarchState) : MarchState :=
  { T := s.T + dTstep p s
    hcl := nextHcl p s
    z := s.z ++ [s.accLen + 0.1]
    temps := s.temps ++ [s.T + dTstep p s]
    concs := s.concs ++ [nextC p s * 100]
    flux := s.flux ++ [Q_removed p s]
    accLen := s.accLen + 0.1
    totalQ := s.totalQ + Q_removed p s
    C := nextC p s }

/-- The `for _ in range(steps)` loop with the `if C_curr >= target: break`
check, as a fuel-indexed recursion. -/
noncomputable def loopGo (p : Inputs) : Nat → MarchState → MarchState
  | 0, s => s
  | n + 1, s =>
    let s' := step p s
    if p.target_conc ≤ s'.C then s' else loopGo p n s'

/-- The state just before the loop starts: `T_curr = gas_temp`, `C_curr = 0.05`,
`current_hcl_mass = (water_rate * 0.05) / 0.95`, empty profile lists. -/
noncomputable def initState (p : Inputs) : MarchState :=
  { T := p.gas_temp
    hcl := water_rate p * 0.05 / 0.95
    z := []
    temps := []
    concs := []
    flux := []
    accLen := 0
    totalQ := 0
    C := 0.05 }

/-- The state when the loop halts (`steps = 60`). -/
noncomputable def finalState (p : Inputs) : MarchState := loopGo p 60 (initState p)

/-- Python `max` over a nonempty list (`max(temp_liquid)`). -/
def listMax : List ℝ → ℝ
  | [] => 0
  | x :: xs => xs.foldl max x

/-- The tuple returned by `solve`. -/
structure SolveResult where
  tubes : ℤ
  length : ℝ
  duty : ℝ
  maxT : ℝ
  z : List ℝ
  temps : List ℝ
  concs : List ℝ
  flux : List ℝ

/-- `AbsorberSimulation.solve`: sizing, then the marching loop, then the
aggregation of the returned tuple. -/
noncomputable def solve (p : Inputs) : SolveResult :=
  let s := finalState p
  { tubes := N_tubes p.gas_flow
    length := s.accLen
    duty := s.totalQ
    maxT := listMax s.temps
    z := s.z
    temps := s.temps
    concs := s.concs
    flux := s.flux }

/-! ### Invariant predicates and concrete inputs used by the proofs -/

/-- All four profile lists have equal length. -/
def LenInv (s : MarchState) : Prop :=
  s.z.length = s.concs.length ∧ s.temps.length = s.concs.length ∧
    s.flux.length = s.concs.length

/-- The `z` list is `[0.1, 0.2, ..., k*0.1]` and the accumulated length is
`k * 0.1`, where `k` is the number of completed steps. -/
def ZInv (s : MarchState) : Prop :=
  s.z = (List.range s.z.length).map (fun i : ℕ => ((i : ℝ) + 1) * 0.1) ∧
    s.accLen = (s.z.length : ℝ) * 0.1

/-- Coherence of the concentration state for a fixed solvent rate `w`:
the HCl mass is positive, `C` is the recomputed mass fraction, and the
recorded percent entries are sorted and bounded by the current `C`. -/
def ConcInv (w : ℝ) (s : MarchState) : Prop :=
  0 < s.hcl ∧ s.C = s.hcl / (s.hcl + w) ∧ s.concs.Sorted (· ≤ ·) ∧
    ∀ x ∈ s.concs, 0 ≤ x ∧ x ≤ s.C * 100

/-- A degenerate input (zero gas flow) on which the marching loop runs all
60 steps with identically zero concentration entries. -/
noncomputable def p0 : Inputs := ⟨0, 25, 1 / 2, 20⟩

/-- The default dashboard inputs. -/
noncomputable def pDefault : Inputs := ⟨2500, 10, 0.32, 32⟩

/-! ### Shape and length lemmas about one step and the loop -/

theorem step_concs_length (p : Inputs) (s : MarchState) :
    (step p s).concs.length = s.concs.length + 1 := by
  simp [step]

theorem loopGo_succ_eq (p : Inputs) (n : Nat) (s : MarchState) :
    loopGo p (n + 1) s =
      if p.target_conc ≤ (step p s).C then step p s else loopGo p n (step p s) := rfl

theorem lenInv_step (p : Inputs) (s : MarchState) (h : LenInv s) : LenInv (step p s) := by
  obtain ⟨h1, h2, h3⟩ := h
  refine ⟨?_, ?_, ?_⟩ <;> simp [step, h1, h2, h3]

theorem lenInv_loopGo (p : Inputs) : ∀ n s, LenInv s → LenInv (loopGo p n s) := by
  intro n
  induction n with
  | zero => intro s h; exact h
  | succ n ih =>
    intro s h
    rw [loopGo_succ_eq]
    split
    · exact lenInv_step p s h
    · exact ih (step p s) (lenInv_step p s h)

theorem loopGo_length_le (p : Inputs) :
    ∀ n s, (loopGo p n s).concs.length ≤ s.concs.length + n := by
  intro n
  induction n with
  | zero => intro s; simp [loopGo]
  | succ n ih =>
    intro s
    rw [loopGo_succ_eq]
    split
    · rw [step_concs_length]; omega
    · have := ih (step p s)
      rw [step_concs_length] at this
      omega

theorem loopGo_length_mono (p : Inputs) :
    ∀ n s, s.concs.length ≤ (loopGo p n s).concs.length := by
  intro n
  induction n with
  | zero => intro s; exact le_refl _
  | succ n ih =>
    intro s
    rw [loopGo_succ_eq]
    split
    · rw [step_concs_length]; omega
    · have := ih (step p s)
      rw [step_concs_length] at this
      omega

theorem solve_proj (p : Inputs) :
    (solve p).z = (finalState p).z ∧ (solve p).temps = (finalState p).temps ∧
      (solve p).concs = (finalState p).concs ∧ (solve p).flux = (finalState p).flux ∧
      (solve p).length = (finalState p).accLen ∧ (solve p).duty = (finalState p).totalQ ∧
      (solve p).tubes = N_tubes p.gas_flow :=
  ⟨rfl, rfl, rfl, rfl, rfl, rfl, rfl⟩

/-! ### The axial-position invariant -/

theorem zInv_step (p : Inputs) (s : MarchState) (h : ZInv s) : ZInv (step p s) := by
  obtain ⟨hz, hl⟩ := h
  have hlen : (step p s).z.length = s.z.length + 1 := by simp [step]
  have hnew : s.accLen + 0.1 = ((s.z.length : ℝ) + 1) * 0.1 := by rw [hl]; ring
  constructor
  · show s.z ++ [s.accLen + 0.1] = _
    rw [hlen, show s.z.length + 1 = Nat.succ s.z.length from rfl,
      List.range_succ, List.map_append, ← hz, hnew]
    simp
  · show s.accLen + 0.1 = _
    rw [hlen, hnew]
    push_cast
    ring

theorem zInv_loopGo (p : Inputs) : ∀ n s, ZInv s → ZInv (loopGo p n s) := by
  intro n
  induction n with
  | zero => intro s h; exact h
  | succ n ih =>
    intro s h
    rw [loopGo_succ_eq]
    split
    · exact zInv_step p s h
    · exact ih (step p s) (zInv_step p s h)

/-! ### Concentration entries before the last one are below the target -/

theorem loopGo_prelast_below (p : Inputs) :
    ∀ n s, (∀ x ∈ s.concs, x < p.target_conc * 100) →
      ∀ x ∈ (loopGo p n s).concs.dropLast, x < p.target_conc * 100 := by
  intro n
  induction n with
  | zero => intro s h x hx; exact h x (List.dropLast_subset _ hx)
  | succ n ih =>
    intro s h x hx
    rw [loopGo_succ_eq] at hx
    by_cases hc : p.target_conc ≤ (step p s).C
    · rw [if_pos hc] at hx
      have : (step p s).concs.dropLast = s.concs := by
        show (s.concs ++ [nextC p s * 100]).dropLast = s.concs
        exact List.dropLast_concat
      rw [this] at hx
      exact h x hx
    · rw [if_neg hc] at hx
      refine ih (step p s) ?_ x hx
      intro y hy
      rcases List.mem_append.mp hy with h1 | h1
      · exact h y h1
      · have hy' : y = nextC p s * 100 := List.mem_singleton.mp h1
        have hcl : nextC p s < p.target_conc := not_le.mp hc
        rw [hy']
        nlinarith

/-! ### Either the last concentration reached the target or all 60 steps ran -/

theorem loopGo_last_or_full (p : Inputs) :
    ∀ n s, (∃ v, (loopGo p n s).concs.getLast? = some v ∧ p.target_conc * 100 ≤ v) ∨
      (loopGo p n s).concs.length = s.concs.length + n := by
  intro n
  induction n with
  | zero => intro s; right; rfl
  | succ n ih =>
    intro s
    rw [loopGo_succ_eq]
    by_cases hc : p.target_conc ≤ (step p s).C
    · rw [if_pos hc]
      left
      refine ⟨nextC p s * 100, ?_, ?_⟩
      · show (s.concs ++ [nextC p s * 100]).getLast? = _
        exact List.getLast?_concat _
      · have : p.target_conc ≤ nextC p s := hc
        nlinarith
    · rw [if_neg hc]
      rcases ih (step p s) with h1 | h1
      · exact Or.inl h1
      · right
        rw [h1, step_concs_length]
        omega

/-! ### Positivity helpers -/

theorem Ntubes_ge_one (gf : ℝ) (h : 0 < gf) : 1 ≤ N_tubes gf := by
  have hx : (0 : ℝ) < (gf / 3600 / 2.42 / 16.0) / (Real.pi * (Di / 2) ^ 2) := by
    apply div_pos
    · positivity
    · apply mul_pos Real.pi_pos
      rw [show Di = 0.020 from rfl]
      norm_num
  have := Int.ceil_pos.mpr hx
  unfold N_tubes
  omega

theorem Ntubes_cast_nonneg (gf : ℝ) (h : 0 < gf) : (0 : ℝ) ≤ (N_tubes gf : ℝ) := by
  have h1 := Ntubes_ge_one gf h
  exact_mod_cast (show (0 : ℤ) ≤ N_tubes gf by omega)

theorem Ntubes_cast_pos (gf : ℝ) (h : 0 < gf) : (0 : ℝ) < (N_tubes gf : ℝ) := by
  have h1 := Ntubes_ge_one gf h
  exact_mod_cast (show (0 : ℤ) < N_tubes gf by omega)

theorem water_rate_pos (p : Inputs) (hg : 0 < p.gas_flow) (h1 : 0 < p.target_conc)
    (h2 : p.target_conc < 1) : 0 < water_rate p := by
  unfold water_rate product_rate total_hcl_in
  have hf : (0 : ℝ) < hcl_frac := by
    rw [show hcl_frac = 0.6728 from rfl]
    norm_num
  apply mul_pos (div_pos (mul_pos hg hf) h1)
  linarith

theorem mass_absorbed_nonneg (p : Inputs) (s : MarchState)
    (hn : (0 : ℝ) ≤ (N_tubes p.gas_flow : ℝ)) : 0 ≤ mass_absorbed p s := by
  unfold mass_absorbed
  have hdf : 0 ≤ driving_force p s := le_max_left 0 _
  have hDi : (0 : ℝ) ≤ Di := by
    rw [show Di = 0.020 from rfl]
    norm_num
  have harea : 0 ≤ Real.pi * Di * 0.1 * (N_tubes p.gas_flow : ℝ) :=
    mul_nonneg (mul_nonneg (mul_nonneg Real.pi_pos.le hDi) (by norm_num)) hn
  apply div_nonneg _ (by norm_num)
  apply mul_nonneg _ (by norm_num)
  exact mul_nonneg (mul_nonneg (by norm_num) hdf) harea

theorem nextHcl_ge (p : Inputs) (s : MarchState)
    (hn : (0 : ℝ) ≤ (N_tubes p.gas_flow : ℝ)) : s.hcl ≤ nextHcl p s := by
  unfold nextHcl
  have := mass_absorbed_nonneg p s hn
  nlinarith

theorem ratio_mono {a b w : ℝ} (hw : 0 < w) (ha : 0 < a) (hab : a ≤ b) :
    a / (a + w) ≤ b / (b + w) := by
  rw [div_le_div_iff₀ (by linarith) (by linarith)]
  nlinarith

theorem initC_eq (p : Inputs) (hw : 0 < water_rate p) :
    (0.05 : ℝ) =
      water_rate p * 0.05 / 0.95 / (water_rate p * 0.05 / 0.95 + water_rate p) := by
  have h1 : water_rate p * 0.05 / 0.95 + water_rate p ≠ 0 := by positivity
  field_simp
  ring

theorem h_film_pos (p : Inputs) (s : MarchState) : 0 < h_film p s := by
  unfold h_film
  exact lt_of_lt_of_le (by norm_num) (le_max_left _ _)

theorem U_overall_pos (p : Inputs) (s : MarchState) : 0 < U_overall p s := by
  unfold U_overall
  have h1 : 0 < h_film p s := h_film_pos p s
  positivity

theorem area_pos (p : Inputs) (hg : 0 < p.gas_flow) :
    0 < Real.pi * Di * 0.1 * (N_tubes p.gas_flow : ℝ) := by
  have hn := Ntubes_cast_pos p.gas_flow hg
  have hDi : (0 : ℝ) < Di := by
    rw [show Di = 0.020 from rfl]
    norm_num
  positivity

/-! ### Preservation of the concentration invariant -/

theorem concInv_step (p : Inputs) (s : MarchState) (hw : 0 < water_rate p)
    (hn : (0 : ℝ) ≤ (N_tubes p.gas_flow : ℝ)) (h : ConcInv (water_rate p) s) :
    ConcInv (water_rate p) (step p s) := by
  obtain ⟨hh, hC, hs, hb⟩ := h
  have hle : s.hcl ≤ nextHcl p s := nextHcl_ge p s hn
  have hh' : 0 < nextHcl p s := lt_of_lt_of_le hh hle
  have hCC : s.C ≤ nextC p s := by
    rw [hC]
    exact ratio_mono hw hh hle
  have hC0 : 0 ≤ nextC p s := div_nonneg hh'.le (by linarith)
  refine ⟨hh', rfl, ?_, ?_⟩
  · show List.Sorted (· ≤ ·) (s.concs ++ [nextC p s * 100])
    refine List.pairwise_append.mpr ⟨hs, List.sorted_singleton _, ?_⟩
    intro a ha b hb'
    rw [List.mem_singleton.mp hb']
    have := (hb a ha).2
    nlinarith
  · intro x hx
    have hx' : x ∈ s.concs ++ [nextC p s * 100] := hx
    show 0 ≤ x ∧ x ≤ nextC p s * 100
    rcases List.mem_append.mp hx' with h1 | h1
    · obtain ⟨h2, h3⟩ := hb x h1
      exact ⟨h2, by nlinarith⟩
    · rw [List.mem_singleton.mp h1]
      exact ⟨by nlinarith, le_refl _⟩

theorem concInv_loopGo (p : Inputs) (hw : 0 < water_rate p)
    (hn : (0 : ℝ) ≤ (N_tubes p.gas_flow : ℝ)) :
    ∀ n s, ConcInv (water_rate p) s → ConcInv (water_rate p) (loopGo p n s) := by
  intro n
  induction n with
  | zero => intro s h; exact h
  | succ n ih =>
    intro s h
    rw [loopGo_succ_eq]
    split
    · exact concInv_step p s hw hn h
    · exact ih (step p s) (concInv_step p s hw hn h)

theorem concInv_init (p : Inputs) (hw : 0 < water_rate p) :
    ConcInv (water_rate p) (initState p) := by
  refine ⟨?_, ?_, ?_, ?_⟩
  · show 0 < water_rate p * 0.05 / 0.95
    positivity
  · show (0.05 : ℝ) = water_rate p * 0.05 / 0.95 / (water_rate p * 0.05 / 0.95 + water_rate p)
    exact initC_eq p hw
  · show List.Sorted (· ≤ ·) ([] : List ℝ)
    exact List.sorted_nil
  · intro x hx
    simp [initState] at hx

/-! ### The degenerate zero-flow input runs all 60 steps -/

theorem water_rate_p0 : water_rate p0 = 0 := by
  simp [water_rate, product_rate, total_hcl_in, p0]

theorem Ntubes_p0 : N_tubes p0.gas_flow = 0 := by
  unfold N_tubes
  rw [show p0.gas_flow = 0 from rfl]
  norm_num

theorem step_p0_hcl (s : MarchState) (h : s.hcl = 0) : (step p0 s).hcl = 0 := by
  show nextHcl p0 s = 0
  unfold nextHcl mass_absorbed
  rw [Ntubes_p0, h]
  norm_num

theorem step_p0_C (s : MarchState) (h : s.hcl = 0) : (step p0 s).C = 0 := by
  show nextC p0 s = 0
  unfold nextC
  rw [show nextHcl p0 s = 0 from step_p0_hcl s h, water_rate_p0]
  norm_num

theorem step_p0_concs (s : MarchState) (h : s.hcl = 0) :
    (step p0 s).concs = s.concs ++ [(0 : ℝ)] := by
  show s.concs ++ [nextC p0 s * 100] = s.concs ++ [(0 : ℝ)]
  rw [show nextC p0 s = 0 from step_p0_C s h]
  norm_num

theorem loopGo_p0 : ∀ n s, s.hcl = 0 →
    (loopGo p0 n s).concs = s.concs ++ List.replicate n (0 : ℝ) ∧
      (loopGo p0 n s).hcl = 0 := by
  intro n
  induction n with
  | zero => intro s h; exact ⟨by simp [loopGo], h⟩
  | succ n ih =>
    intro s h
    rw [loopGo_succ_eq]
    have hC : (step p0 s).C = 0 := step_p0_C s h
    have hcond : ¬ p0.target_conc ≤ (step p0 s).C := by
      rw [hC]
      show ¬ (1 / 2 : ℝ) ≤ 0
      norm_num
    rw [if_neg hcond]
    obtain ⟨ih1, ih2⟩ := ih (step p0 s) (step_p0_hcl s h)
    refine ⟨?_, ih2⟩
    rw [ih1, step_p0_concs s h, List.append_assoc]
    simp [List.replicate_succ]

theorem init_p0_hcl : (initState p0).hcl = 0 := by
  show water_rate p0 * 0.05 / 0.95 = 0
  rw [water_rate_p0]
  norm_num

theorem solve_p0_concs : (solve p0).concs = List.replicate 60 (0 : ℝ) := by
  show (loopGo p0 60 (initState p0)).concs = _
  rw [(loopGo_p0 60 (initState p0) init_p0_hcl).1]
  show ([] : List ℝ) ++ List.replicate 60 (0 : ℝ) = List.replicate 60 (0 : ℝ)
  simp

end Absorber

namespace Absorber

/-! ### Claim theorems: C2, C4, C5, C9 -/

/-- C2: the four profile sequences returned by `solve` all have the same
length, and that length is at least 1 and at most 60 (one entry is appended
to each list per completed step, in step order, by construction of `step`). -/
theorem solve_profile_lengths (p : Inputs) :
    (solve p).z.length = (solve p).concs.length ∧
    (solve p).temps.length = (solve p).concs.length ∧
    (solve p).flux.length = (solve p).concs.length ∧
    1 ≤ (solve p).concs.length ∧ (solve p).concs.length ≤ 60 := by
  have hinv : LenInv (finalState p) := by
    apply lenInv_loopGo
    exact ⟨rfl, rfl, rfl⟩
  have hle : (finalState p).concs.length ≤ 60 := by
    have := loopGo_length_le p 60 (initState p)
    simpa [initState, finalState] using this
  have hge : 1 ≤ (finalState p).concs.length := by
    have h1 := loopGo_length_mono p 59 (step p (initState p))
    have h2 : (step p (initState p)).concs.length = 1 := by
      simp [step, initState]
    unfold finalState
    rw [show (60 : Nat) = 59 + 1 from rfl, loopGo_succ_eq]
    split
    · omega
    · omega
  obtain ⟨e1, e2, e3⟩ := hinv
  exact ⟨e1, e2, e3, hge, hle⟩

/-- C4: the equilibrium-pressure function returns exactly 0 when `conc < 0.01`,
and otherwise returns `exp (10.5 - 2500/(temp + 273) + 2 * ln conc) * 133.322`;
it is a pure function of its two arguments. -/
theorem equilibrium_pressure_spec (temp conc : ℝ) :
    (conc < 0.01 → get_equilibrium_pressure temp conc = 0) ∧
    (¬ conc < 0.01 →
      get_equilibrium_pressure temp conc =
        Real.exp (10.5 - 2500 / (temp + 273) + 2 * Real.log conc) * 133.322) := by
  constructor
  · intro h; simp [get_equilibrium_pressure, h]
  · intro h; simp [get_equilibrium_pressure, h]

/-- Witness for C4 at `temp = 25`: the guard branch at `conc = 0.005` and the
correlation branch at `conc = 1/2`. -/
theorem equilibrium_pressure_spec_holds :
    ((0.005 : ℝ) < 0.01 ∧ get_equilibrium_pressure 25 0.005 = 0) ∧
      (¬ (1 / 2 : ℝ) < 0.01 ∧
        get_equilibrium_pressure 25 (1 / 2) =
          Real.exp (10.5 - 2500 / (25 + 273) + 2 * Real.log (1 / 2)) * 133.322) :=
  ⟨⟨by norm_num, (equilibrium_pressure_spec 25 0.005).1 (by norm_num)⟩,
   ⟨by norm_num, (equilibrium_pressure_spec 25 (1 / 2)).2 (by norm_num)⟩⟩

/-- C5: the tube count is the ceiling of
`((gas_flow/3600)/2.42)/16.0 / (π * (0.020/2)^2)`, and for positive
`gas_flow` it is at least 1. -/
theorem tube_count_spec (gf : ℝ) :
    N_tubes gf = ⌈(gf / 3600 / 2.42 / 16.0) / (Real.pi * (0.020 / 2) ^ 2)⌉ ∧
    (∀ gt tc cw, (solve ⟨gf, gt, tc, cw⟩).tubes = N_tubes gf) ∧
    (0 < gf → 1 ≤ N_tubes gf) := by
  refine ⟨rfl, fun gt tc cw => rfl, ?_⟩
  · intro h
    have hx : (0 : ℝ) < (gf / 3600 / 2.42 / 16.0) / (Real.pi * (Di / 2) ^ 2) := by
      apply div_pos
      · positivity
      · apply mul_pos Real.pi_pos
        have : Di = 0.020 := rfl
        rw [this]; norm_num
    have := Int.ceil_pos.mpr hx
    unfold N_tubes
    omega

/-- Witness for C5 at `gas_flow = 2500`. -/
theorem tube_count_spec_holds : (0 : ℝ) < 2500 ∧ 1 ≤ N_tubes 2500 :=
  ⟨by norm_num, (tube_count_spec 2500).2.2 (by norm_num)⟩

/-- C9: `solve` is deterministic — two invocations with identical inputs
return identical results; there is no hidden state between invocations. -/
theorem solve_deterministic (p q : Inputs) (h1 : p.gas_flow = q.gas_flow)
    (h2 : p.gas_temp = q.gas_temp) (h3 : p.target_conc = q.target_conc)
    (h4 : p.cw_temp = q.cw_temp) : solve p = solve q := by
  cases p; cases q
  cases h1; cases h2; cases h3; cases h4
  rfl

/-- Witness for C9 at the default dashboard inputs. -/
theorem solve_deterministic_holds :
    solve ⟨2500, 10, 0.32, 32⟩ = solve ⟨2500, 10, 0.32, 32⟩ :=
  solve_deterministic ⟨2500, 10, 0.32, 32⟩ ⟨2500, 10, 0.32, 32⟩ rfl rfl rfl rfl

/-! ### Claim theorems: C1, C3, C6, C7, C8, C10 -/

/-- C1: the marching loop stops at the first step at which the updated
concentration reaches the target: every entry of the returned concentration
profile except the last one is strictly below the target (entries are stored
as percent, so the comparison is against `target_conc * 100`); hence no
profile entry is appended after the first step that reaches the target. -/
theorem solve_stops_at_target (p : Inputs) :
    ∀ x ∈ (solve p).concs.dropLast, x < p.target_conc * 100 := by
  intro x hx
  have hx' : x ∈ (loopGo p 60 (initState p)).concs.dropLast := hx
  refine loopGo_prelast_below p 60 (initState p) ?_ x hx'
  intro y hy
  simp [initState] at hy

/-- Witness for C1 on the degenerate zero-flow input, whose concentration
profile is 60 zero entries. -/
theorem solve_stops_at_target_holds :
    (0 : ℝ) ∈ (solve p0).concs.dropLast ∧ (0 : ℝ) < p0.target_conc * 100 := by
  have hm : (0 : ℝ) ∈ (solve p0).concs.dropLast := by
    rw [solve_p0_concs, show (60 : ℕ) = 59 + 1 from rfl, List.replicate_succ' 59 (0 : ℝ),
      List.dropLast_concat]
    simp [List.mem_replicate]
  exact ⟨hm, solve_stops_at_target p0 0 hm⟩

/-- C3: for positive gas flow and a target concentration in (0,1), the
recorded concentration-as-percent entries are non-decreasing in step order
(absorption only, driving force floored at zero) and each lies in [0, 100]
(so the underlying mass fraction C lies in [0, 1] at every step). -/
theorem solve_conc_bounded_monotone (p : Inputs) (hg : 0 < p.gas_flow)
    (h1 : 0 < p.target_conc) (h2 : p.target_conc < 1) :
    (solve p).concs.Sorted (· ≤ ·) ∧ ∀ x ∈ (solve p).concs, 0 ≤ x ∧ x ≤ 100 := by
  have hw : 0 < water_rate p := water_rate_pos p hg h1 h2
  have hn : (0 : ℝ) ≤ (N_tubes p.gas_flow : ℝ) := Ntubes_cast_nonneg p.gas_flow hg
  have hinv : ConcInv (water_rate p) (loopGo p 60 (initState p)) :=
    concInv_loopGo p hw hn 60 (initState p) (concInv_init p hw)
  obtain ⟨hh, hC, hs, hb⟩ := hinv
  have hCle : (loopGo p 60 (initState p)).C ≤ 1 := by
    rw [hC, div_le_one (by linarith)]
    linarith
  refine ⟨hs, ?_⟩
  intro x hx
  have hx' : x ∈ (loopGo p 60 (initState p)).concs := hx
  obtain ⟨ha, hbnd⟩ := hb x hx'
  exact ⟨ha, by nlinarith⟩

/-- Witness for C3 at the default dashboard inputs. -/
theorem solve_conc_bounded_monotone_holds :
    (0 : ℝ) < pDefault.gas_flow ∧ (0 : ℝ) < pDefault.target_conc ∧
      pDefault.target_conc < 1 ∧
      ((solve pDefault).concs.Sorted (· ≤ ·) ∧
        ∀ x ∈ (solve pDefault).concs, 0 ≤ x ∧ x ≤ 100) :=
  ⟨by norm_num [pDefault], by norm_num [pDefault], by norm_num [pDefault],
    solve_conc_bounded_monotone pDefault (by norm_num [pDefault])
      (by norm_num [pDefault]) (by norm_num [pDefault])⟩

/-- C6: the k-th axial-position entry equals `k * 0.1` (the `z` list is
exactly `[1*0.1, 2*0.1, ...]`, so the accumulated length strictly grows by
exactly 0.1 per step), and the returned final length equals the number of
steps taken times 0.1. -/
theorem solve_axial_positions (p : Inputs) :
    (solve p).z = (List.range (solve p).z.length).map (fun i : ℕ => ((i : ℝ) + 1) * 0.1) ∧
      (solve p).length = ((solve p).z.length : ℝ) * 0.1 := by
  have h : ZInv (loopGo p 60 (initState p)) := by
    apply zInv_loopGo
    constructor
    · rfl
    · show (0 : ℝ) = ((List.length ([] : List ℝ)) : ℝ) * 0.1
      norm_num
  exact h

/-- C7: `solve` is a total function (no error on under-convergence), and on
return either the last concentration entry reached the target (as percent)
or the profile has exactly 60 entries — the step budget was exhausted and the
shortfall is observable only by comparing the last entry with the target. -/
theorem solve_target_or_budget (p : Inputs) :
    (∃ v, (solve p).concs.getLast? = some v ∧ p.target_conc * 100 ≤ v) ∨
      (solve p).concs.length = 60 := by
  rcases loopGo_last_or_full p 60 (initState p) with h | h
  · exact Or.inl h
  · right
    show (loopGo p 60 (initState p)).concs.length = 60
    rw [h]
    simp [initState]

/-- C8: with the target concentration equal to the 0.05 seed and positive
gas flow, `solve` terminates at the very first step: every profile sequence
has at most one entry. -/
theorem solve_seed_target (p : Inputs) (hg : 0 < p.gas_flow)
    (ht : p.target_conc = 0.05) :
    (solve p).concs.length ≤ 1 ∧ (solve p).z.length ≤ 1 ∧
      (solve p).temps.length ≤ 1 ∧ (solve p).flux.length ≤ 1 := by
  have hw : 0 < water_rate p :=
    water_rate_pos p hg (by rw [ht]; norm_num) (by rw [ht]; norm_num)
  have hn : (0 : ℝ) ≤ (N_tubes p.gas_flow : ℝ) := Ntubes_cast_nonneg p.gas_flow hg
  have h0 : 0 < water_rate p * 0.05 / 0.95 := by positivity
  have hini : (initState p).hcl = water_rate p * 0.05 / 0.95 := rfl
  have hgeC : (0.05 : ℝ) ≤ nextC p (initState p) := by
    have hle : (initState p).hcl ≤ nextHcl p (initState p) := nextHcl_ge p (initState p) hn
    calc (0.05 : ℝ)
        = water_rate p * 0.05 / 0.95 / (water_rate p * 0.05 / 0.95 + water_rate p) :=
          initC_eq p hw
      _ ≤ nextC p (initState p) := by
          unfold nextC
          rw [← hini]
          exact ratio_mono hw (by rw [hini]; exact h0) hle
  have hcond : p.target_conc ≤ (step p (initState p)).C := by
    rw [ht]
    exact hgeC
  have hfin : finalState p = step p (initState p) := by
    unfold finalState
    rw [show (60 : ℕ) = 59 + 1 from rfl, loopGo_succ_eq, if_pos hcond]
  constructor
  · show (finalState p).concs.length ≤ 1
    rw [hfin]
    simp [step, initState]
  constructor
  · show (finalState p).z.length ≤ 1
    rw [hfin]
    simp [step, initState]
  constructor
  · show (finalState p).temps.length ≤ 1
    rw [hfin]
    simp [step, initState]
  · show (finalState p).flux.length ≤ 1
    rw [hfin]
    simp [step, initState]

/-- Witness for C8 at gas flow 2500 with target 0.05. -/
theorem solve_seed_target_holds :
    (0 : ℝ) < (2500 : ℝ) ∧
      ((solve ⟨2500, 10, 0.05, 32⟩).concs.length ≤ 1 ∧
        (solve ⟨2500, 10, 0.05, 32⟩).z.length ≤ 1 ∧
        (solve ⟨2500, 10, 0.05, 32⟩).temps.length ≤ 1 ∧
        (solve ⟨2500, 10, 0.05, 32⟩).flux.length ≤ 1) :=
  ⟨by norm_num, solve_seed_target ⟨2500, 10, 0.05, 32⟩ (by norm_num) rfl⟩

/-- C10: for positive gas flow, the heat-flux value appended by a step is
exactly `Q_removed` of the pre-update state, it is accumulated into the
total heat duty, and its sign equals the sign of (current liquid temperature
− cooling-water inlet temperature): in particular it is strictly negative
whenever `T < cw_temp` — no floor at zero is applied. -/
theorem step_flux_sign (p : Inputs) (s : MarchState) (hg : 0 < p.gas_flow) :
    (step p s).flux.getLast? = some (Q_removed p s) ∧
      (step p s).totalQ = s.totalQ + Q_removed p s ∧
      (Q_removed p s < 0 ↔ s.T < p.cw_temp) ∧
      (Q_removed p s = 0 ↔ s.T = p.cw_temp) ∧
      (0 < Q_removed p s ↔ p.cw_temp < s.T) := by
  have h1 := U_overall_pos p s
  have h2 := area_pos p hg
  have hc : 0 < U_overall p s * (Real.pi * Di * 0.1 * (N_tubes p.gas_flow : ℝ)) / 1000 := by
    positivity
  have hQ : Q_removed p s =
      U_overall p s * (Real.pi * Di * 0.1 * (N_tubes p.gas_flow : ℝ)) / 1000 *
        (s.T - p.cw_temp) := by
    unfold Q_removed
    ring
  refine ⟨?_, rfl, ?_, ?_, ?_⟩
  · show (s.flux ++ [Q_removed p s]).getLast? = some (Q_removed p s)
    exact List.getLast?_concat _
  · rw [hQ]
    constructor <;> intro h <;> nlinarith
  · rw [hQ]
    constructor
    · intro h
      rcases mul_eq_zero.mp h with h3 | h3
      · exact absurd h3 hc.ne'
      · exact sub_eq_zero.mp h3
    · intro h
      rw [h]
      ring
  · rw [hQ]
    constructor <;> intro h <;> nlinarith

/-- Witness for C10 at the default dashboard inputs and the initial state. -/
theorem step_flux_sign_holds :
    (0 : ℝ) < pDefault.gas_flow ∧
      (step pDefault (initState pDefault)).flux.getLast? =
        some (Q_removed pDefault (initState pDefault)) :=
  ⟨by norm_num [pDefault],
    (step_flux_sign pDefault (initState pDefault) (by norm_num [pDefault])).1⟩

end Absorber
